import Mathlib

/-!
Verification of `src/SettingsTab.ts` of the opencode-obsidian plugin.

JavaScript strings are modelled as `List Char`.  The Obsidian/Node
externals consumed by the settings tab — `homedir()`, `existsSync`,
`statSync` — are parameters of the embedded functions: `homedir()` is a
plain string argument, and the two filesystem calls are fields of a
`FileSystem` record returning `Except` (the `.error` case models a thrown
exception, which the source catches in its `try`/`catch`).
All functions are translated from the source, keeping the source's names
where they exist.
-/

namespace SettingsTab

/-- Characters removed by JavaScript `String.prototype.trim` and skipped by
`parseInt` (ECMAScript WhiteSpace plus LineTerminator), as code points. -/
def jsWhitespaceCodes : List Nat :=
  [9, 10, 11, 12, 13, 32, 160, 0x1680,
   0x2000, 0x2001, 0x2002, 0x2003, 0x2004, 0x2005, 0x2006, 0x2007,
   0x2008, 0x2009, 0x200A, 0x2028, 0x2029, 0x202F, 0x205F, 0x3000, 0xFEFF]

def jsWhitespaceChar (c : Char) : Bool :=
  jsWhitespaceCodes.contains c.toNat

/-- JavaScript `value.trim()`. -/
def jsTrim (s : List Char) : List Char :=
  ((s.dropWhile jsWhitespaceChar).reverse.dropWhile jsWhitespaceChar).reverse

/-- Leading run of ASCII decimal digits. -/
def takeDigits (s : List Char) : List Char :=
  s.takeWhile fun c => c.isDigit

/-- Value of a digit string read in base 10. -/
def digitsToNat (ds : List Char) : Nat :=
  ds.foldl (fun acc c => acc * 10 + (c.toNat - 48)) 0

/-- JavaScript `parseInt(value, 10)`: skip leading whitespace, read an
optional sign and then the longest run of decimal digits; `none` models the
`NaN` result when no digit follows.  (The double-precision rounding JS
applies to digit strings of 16+ digits is not modelled; it never moves a
value across the `0 < p < 65536` bounds tested by the source.) -/
def jsParseInt10 (s : List Char) : Option Int :=
  match s.dropWhile jsWhitespaceChar with
  | '-' :: rest =>
      let ds := takeDigits rest
      if ds = [] then none else some (-(digitsToNat ds : Int))
  | '+' :: rest =>
      let ds := takeDigits rest
      if ds = [] then none else some (digitsToNat ds : Int)
  | rest =>
      let ds := takeDigits rest
      if ds = [] then none else some (digitsToNat ds : Int)

/-- ECMAScript `GetSubstitution` for a string-pattern `replace`: in the
replacement text, `$$` yields `$`, `$&` the matched substring, `` $` ``
the portion of the string before the match and `$'` the portion after it;
a `$` followed by anything else (including `$n`/`$<`, since a string
pattern has no capture groups) is copied literally, scanning resuming at
the following character.  Arguments: the matched substring, the text
before the match, the text after it, then the replacement template. -/
def getSubstitution (matched before after : List Char) : List Char → List Char
  | [] => []
  | c :: rest =>
      if c = '$' then
        match rest with
        | [] => ['$']
        | c2 :: rest2 =>
            (if c2 = '$' then ['$']
             else if c2 = '&' then matched
             else if c2 = Char.ofNat 96 then before
             else if c2 = Char.ofNat 39 then after
             else ['$', c2]) ++ getSubstitution matched before after rest2
      else c :: getSubstitution matched before after rest

/-- `true` when the string contains a `$` immediately followed by one of
`$`, `&`, `` ` ``, `'` — exactly the templates `getSubstitution` treats
specially.  Strings without such a pattern pass through `replace`'s
substitution verbatim. -/
def hasDollarPattern : List Char → Bool
  | [] => false
  | c :: rest =>
      if c = '$' then
        match rest with
        | [] => false
        | c2 :: rest2 =>
            if c2 = '$' || c2 = '&' || c2 = Char.ofNat 96 || c2 = Char.ofNat 39 then
              true
            else hasDollarPattern rest2
      else hasDollarPattern rest

/-- Scan of JavaScript `s.replace(pat, repl)` with the already-consumed
prefix accumulated in reverse in `pre`: at the first position where `pat`
matches, the result is the prefix, the substituted replacement, and the
remainder; with no match the original string is returned. -/
def replaceFirstFrom : (pre s pat repl : List Char) → List Char
  | pre, [], pat, repl =>
      if pat = [] then pre.reverse ++ getSubstitution pat pre.reverse [] repl
      else pre.reverse
  | pre, c :: rest, pat, repl =>
      if pat.isPrefixOf (c :: rest) then
        pre.reverse ++
          getSubstitution pat pre.reverse ((c :: rest).drop pat.length) repl ++
          (c :: rest).drop pat.length
      else replaceFirstFrom (c :: pre) rest pat repl

/-- JavaScript `s.replace(pat, repl)` with a string pattern: replace the
first occurrence of `pat`, applying `GetSubstitution` to `repl`. -/
def replaceFirst (s pat repl : List Char) : List Char :=
  replaceFirstFrom [] s pat repl

/-- `expandTilde` from `SettingsTab.ts` lines 6–14; `home` is `homedir()`. -/
def expandTilde (home path : List Char) : List Char :=
  if path = ['~'] then home
  else if ['~', '/'].isPrefixOf path then replaceFirst path ['~'] home
  else path

/-- Port field `onChange` (lines 41–47): parse, and save only when the
parse is not `NaN` and the value is in `(0, 65536)`; `current` is the
previously stored `settings.port`. -/
def portOnChange (current : Int) (value : List Char) : Int :=
  match jsParseInt10 value with
  | none => current
  | some port => if 0 < port ∧ port < 65536 then port else current

/-- Hostname field `onChange` (lines 57–60): `value || "127.0.0.1"`. -/
def hostnameOnChange (value : List Char) : List Char :=
  if value = [] then "127.0.0.1".toList else value

/-- OpenCode path field `onChange` (lines 72–75): `value || "opencode"`. -/
def opencodePathOnChange (value : List Char) : List Char :=
  if value = [] then "opencode".toList else value

/-- Result of `node:fs` `statSync`, restricted to the one field consulted. -/
structure Stat where
  isDirectory : Bool
deriving DecidableEq

/-- The `node:fs` calls used by validation.  `.error msg` models the call
throwing an `Error` whose `.message` is `msg`. -/
structure FileSystem where
  existsSync : List Char → Except (List Char) Bool
  statSync : List Char → Except (List Char) Stat

/-- Observable outcome of `validateAndSetProjectDirectory`: either
`plugin.updateProjectDirectory(dir)` is awaited, or a `Notice` with the
given message is shown and the method returns without persisting. -/
inductive VResult where
  | update (dir : List Char)
  | notice (msg : List Char)
deriving DecidableEq

def absPathNotice : List Char :=
  "Project directory must be an absolute path (or start with ~)".toList

def notExistNotice : List Char :=
  "Project directory does not exist".toList

def notDirNotice : List Char :=
  "Project directory path is not a directory".toList

def failValidateNotice (errMsg : List Char) : List Char :=
  "Failed to validate path: ".toList ++ errMsg

/-- `trimmed.match(/^[A-Za-z]:\\/)` is non-null: an ASCII letter followed
by `:` and a backslash. -/
def matchDrive : List Char → Bool
  | a :: ':' :: '\\' :: _ => a.isAlpha
  | _ => false

/-- Line 132's condition, negated: the trimmed value starts with `/` or
`~`, or matches the Windows drive-letter regex. -/
def isAbsoluteForm (s : List Char) : Bool :=
  ['/'].isPrefixOf s || ['~'].isPrefixOf s || matchDrive s

/-- Lines 141–154 of the source: the `try`/`catch` block around
`existsSync`/`statSync` plus the final `updateProjectDirectory(expanded)`.
A thrown error (`.error`) is caught and reported as a `Notice`. -/
def fsCheck (fs : FileSystem) (expanded : List Char) : VResult :=
  match fs.existsSync expanded with
  | .error e => .notice (failValidateNotice e)
  | .ok false => .notice notExistNotice
  | .ok true =>
      match fs.statSync expanded with
      | .error e => .notice (failValidateNotice e)
      | .ok stat =>
          if stat.isDirectory then .update expanded
          else .notice notDirNotice

/-- `validateAndSetProjectDirectory` (lines 122–158); `home` is
`homedir()` and `fs` supplies `existsSync`/`statSync`. -/
def validateAndSetProjectDirectory (home : List Char) (fs : FileSystem)
    (value : List Char) : VResult :=
  let trimmed := jsTrim value
  if trimmed = [] then .update []
  else if isAbsoluteForm trimmed = false then .notice absPathNotice
  else fsCheck fs (expandTilde home trimmed)

/-- Debounce of the project-directory field (lines 87–95).  An edit at
time `t` clears any pending timer and schedules validation of its value at
`t + 500`; the timer fires only if no later edit arrives first.  Given the
edits in order with strictly increasing times, this returns the values
whose validation actually runs: an edit's value is validated exactly when
the next edit comes at least 500 ms later (the last edit always is, once
the user stops typing). -/
def debounceRun {α : Type} : List (Nat × α) → List α
  | [] => []
  | [(_, v)] => [v]
  | (t, v) :: (t', v') :: rest =>
      if t + 500 ≤ t' then v :: debounceRun ((t', v') :: rest)
      else debounceRun ((t', v') :: rest)

/-- `getProcessState()` values. -/
inductive ProcessState where
  | stopped
  | starting
  | running
  | error
deriving DecidableEq

/-- The lifecycle controls `renderServerStatus` can place in the button
container. -/
inductive UiControl where
  | startServer
  | stopServer
  | restartServer
  | pleaseWait
deriving DecidableEq

/-- The button container built at lines 198–237, in render order. -/
def renderControls (state : ProcessState) : List UiControl :=
  (if state = .stopped ∨ state = .error then [.startServer] else []) ++
  (if state = .running then [.stopServer, .restartServer] else []) ++
  (if state = .starting then [.pleaseWait] else [])

/-- Filesystem in which every path exists and is a directory; used to
exercise the validation theorems at concrete inputs. -/
def fsAllOk : FileSystem :=
  ⟨fun _ => .ok true, fun _ => .ok ⟨true⟩⟩

/-- A replacement template without a `$`-substitution pattern passes
through `getSubstitution` verbatim. -/
theorem getSubstitution_literal (matched before after : List Char) :
    ∀ repl, hasDollarPattern repl = false →
      getSubstitution matched before after repl = repl
  | [], _ => rfl
  | [c], _ => by
      by_cases hc : c = '$'
      · subst hc
        rw [getSubstitution.eq_2, if_pos rfl]
      · rw [getSubstitution.eq_2, if_neg hc, getSubstitution.eq_1]
  | c :: c2 :: rest2, h => by
      by_cases hc : c = '$'
      · subst hc
        rw [hasDollarPattern.eq_3, if_pos rfl] at h
        by_cases h2 : (c2 = '$' || c2 = '&' || c2 = Char.ofNat 96 ||
            c2 = Char.ofNat 39) = true
        · rw [if_pos h2] at h
          exact absurd h (by decide)
        · rw [if_neg h2] at h
          have n1 : ¬c2 = '$' := fun hx => h2 (by simp [hx])
          have n2 : ¬c2 = '&' := fun hx => h2 (by simp [hx])
          have n3 : ¬c2 = Char.ofNat 96 := fun hx => h2 (by simp [hx])
          have n4 : ¬c2 = Char.ofNat 39 := fun hx => h2 (by simp [hx])
          rw [getSubstitution.eq_3, if_pos rfl, if_neg n1, if_neg n2, if_neg n3,
            if_neg n4, getSubstitution_literal matched before after rest2 h]
          rfl
      · have h' : hasDollarPattern (c2 :: rest2) = false := by
          rw [hasDollarPattern.eq_3, if_neg hc] at h
          exact h
        rw [getSubstitution.eq_3, if_neg hc,
          getSubstitution_literal matched before after (c2 :: rest2) h']

/-- C3 counterexample: with a home directory that is itself a
`$`-substitution pattern, line 11's `path.replace("~", homedir())` splices
the matched `~` back in, so the result of expanding `"~/x"` is not the
home directory followed by `"/x"`. -/
theorem c3_expandTilde_counterexample :
    expandTilde "$&".toList ('~' :: '/' :: ['x']) ≠ "$&".toList ++ '/' :: ['x'] := by
  decide

/-- C3 amended: `expandTilde` maps the exact string `"~"` to the home
directory; provided the home directory contains no `$`-substitution
pattern (`$$`, `$&`, `` $` ``, `$'`), it maps every string beginning with
`"~/"` to the same string with the leading `~` replaced by the home
directory; and it returns every other string unchanged. -/
theorem c3_expandTilde_amended (home s p : List Char)
    (hd : hasDollarPattern home = false) (hne : p ≠ ['~'])
    (hpre : ['~', '/'].isPrefixOf p = false) :
    expandTilde home ['~'] = home ∧
    expandTilde home ('~' :: '/' :: s) = home ++ '/' :: s ∧
    expandTilde home p = p := by
  refine ⟨by simp [expandTilde], ?_, ?_⟩
  · have hg := getSubstitution_literal ['~'] [] ('/' :: s) home hd
    simp [expandTilde, replaceFirst, replaceFirstFrom, List.isPrefixOf, hg]
  · simp [expandTilde, hne, hpre]

theorem c3_expandTilde_amended_witness :
    (hasDollarPattern "/home/u".toList = false ∧
     "a/b".toList ≠ ['~'] ∧ (['~', '/'].isPrefixOf "a/b".toList) = false) ∧
    (expandTilde "/home/u".toList ['~'] = "/home/u".toList ∧
     expandTilde "/home/u".toList ('~' :: '/' :: "x".toList) =
       "/home/u".toList ++ '/' :: "x".toList ∧
     expandTilde "/home/u".toList "a/b".toList = "a/b".toList) :=
  ⟨⟨by decide, by decide, by decide⟩,
   c3_expandTilde_amended "/home/u".toList "x".toList "a/b".toList
     (by decide) (by decide) (by decide)⟩

/-- C1: after any change event on the Port field, the stored port stays an
integer strictly between 0 and 65536 (given the previously stored port
was); the parsed value is saved exactly when `parseInt(value, 10)` is not
`NaN` and lies in `(0, 65536)`, and every other input leaves the stored
port unchanged. -/
theorem c1_port_onChange (current : Int) (v : List Char)
    (h1 : 0 < current) (h2 : current < 65536) :
    (0 < portOnChange current v ∧ portOnChange current v < 65536) ∧
    portOnChange current v =
      (match jsParseInt10 v with
       | some p => if 0 < p ∧ p < 65536 then p else current
       | none => current) := by
  refine ⟨?_, ?_⟩
  · cases hp : jsParseInt10 v with
    | none => simpa [portOnChange, hp] using And.intro h1 h2
    | some p =>
        by_cases hc : 0 < p ∧ p < 65536
        · simpa [portOnChange, hp, if_pos hc] using hc
        · simpa [portOnChange, hp, if_neg hc] using And.intro h1 h2
  · cases hp : jsParseInt10 v <;> simp [portOnChange, hp]

theorem c1_port_onChange_witness :
    ((0:Int) < 14096 ∧ (14096:Int) < 65536) ∧
    ((0 < portOnChange 14096 ['8', '0'] ∧ portOnChange 14096 ['8', '0'] < 65536) ∧
     portOnChange 14096 ['8', '0'] =
       (match jsParseInt10 ['8', '0'] with
        | some p => if 0 < p ∧ p < 65536 then p else 14096
        | none => 14096)) :=
  ⟨⟨by decide, by decide⟩, c1_port_onChange 14096 ['8', '0'] (by decide) (by decide)⟩

/-- C2: an empty Hostname input is stored as `"127.0.0.1"` and an empty
OpenCode-path input as `"opencode"`; non-empty inputs are stored verbatim,
so neither stored setting is ever the empty string after a change event. -/
theorem c2_defaults_on_empty (v : List Char) (hv : v ≠ []) :
    hostnameOnChange [] = "127.0.0.1".toList ∧
    opencodePathOnChange [] = "opencode".toList ∧
    hostnameOnChange v = v ∧
    opencodePathOnChange v = v ∧
    hostnameOnChange v ≠ [] ∧
    opencodePathOnChange v ≠ [] ∧
    hostnameOnChange [] ≠ [] ∧
    opencodePathOnChange [] ≠ [] := by
  simp [hostnameOnChange, opencodePathOnChange, hv]

theorem c2_defaults_on_empty_witness :
    ['x'] ≠ ([] : List Char) ∧
    (hostnameOnChange [] = "127.0.0.1".toList ∧
     opencodePathOnChange [] = "opencode".toList ∧
     hostnameOnChange ['x'] = ['x'] ∧
     opencodePathOnChange ['x'] = ['x'] ∧
     hostnameOnChange ['x'] ≠ [] ∧
     opencodePathOnChange ['x'] ≠ [] ∧
     hostnameOnChange [] ≠ [] ∧
     opencodePathOnChange [] ≠ []) :=
  ⟨by decide, c2_defaults_on_empty ['x'] (by decide)⟩

/-- C7: the status panel renders the Start Server button exactly in states
`stopped` and `error`, the Stop Server and Restart Server buttons exactly
in state `running`, and only the "Please wait..." span in state
`starting`. -/
theorem c7_renderControls_spec (s : ProcessState) :
    (UiControl.startServer ∈ renderControls s ↔ s = .stopped ∨ s = .error) ∧
    (UiControl.stopServer ∈ renderControls s ↔ s = .running) ∧
    (UiControl.restartServer ∈ renderControls s ↔ s = .running) ∧
    renderControls .starting = [UiControl.pleaseWait] := by
  cases s <;> decide

/-- C9: an input that is empty or whitespace-only after trimming is
accepted immediately: `updateProjectDirectory("")` is called (vault root),
with no absolute-form or filesystem check — the conclusion holds for every
`home` and every `fs`. -/
theorem c9_empty_input_vault_root (home : List Char) (fs : FileSystem)
    (value : List Char) (h : jsTrim value = []) :
    validateAndSetProjectDirectory home fs value = .update [] := by
  simp [validateAndSetProjectDirectory, h]

theorem c9_empty_input_vault_root_witness :
    jsTrim "  ".toList = [] ∧
    validateAndSetProjectDirectory "/h".toList fsAllOk "  ".toList = .update [] :=
  ⟨by decide, c9_empty_input_vault_root "/h".toList fsAllOk "  ".toList (by decide)⟩

/-- C5: a non-empty trimmed input that starts with neither `/` nor `~` and
does not match the drive-letter regex `^[A-Za-z]:\` produces the
absolute-path `Notice` and returns; producing `.notice` rather than
`.update` means `updateProjectDirectory` is never called. -/
theorem c5_relative_rejected (home : List Char) (fs : FileSystem)
    (value : List Char) (hne : jsTrim value ≠ [])
    (h1 : ['/'].isPrefixOf (jsTrim value) = false)
    (h2 : ['~'].isPrefixOf (jsTrim value) = false)
    (h3 : matchDrive (jsTrim value) = false) :
    validateAndSetProjectDirectory home fs value = .notice absPathNotice := by
  have habs : isAbsoluteForm (jsTrim value) = false := by
    simp [isAbsoluteForm, h1, h2, h3]
  simp [validateAndSetProjectDirectory, hne, habs]

theorem c5_relative_rejected_witness :
    (jsTrim "rel/path".toList ≠ [] ∧
     ['/'].isPrefixOf (jsTrim "rel/path".toList) = false ∧
     ['~'].isPrefixOf (jsTrim "rel/path".toList) = false ∧
     matchDrive (jsTrim "rel/path".toList) = false) ∧
    validateAndSetProjectDirectory "/h".toList fsAllOk "rel/path".toList =
      .notice absPathNotice :=
  ⟨⟨by decide, by decide, by decide, by decide⟩,
   c5_relative_rejected "/h".toList fsAllOk "rel/path".toList
     (by decide) (by decide) (by decide) (by decide)⟩

/-- C8: whenever `validateAndSetProjectDirectory` persists a directory,
either the trimmed input was empty (and `""` was persisted) or every
check passed: the absolute-form test, `existsSync` returning `true`
without throwing, and `statSync` returning a directory stat without
throwing — and the persisted value is the expanded path.
Contrapositive of the claim: on any failing check, including an exception
(`.error`, which the source's `catch` turns into a `Notice`), no
`.update` is produced and the persisted directory is untouched; the total
`Except`-valued embedding of the `try`/`catch` shows no exception escapes
the handler. -/
theorem c8_update_characterization (home : List Char) (fs : FileSystem)
    (value d : List Char)
    (h : validateAndSetProjectDirectory home fs value = .update d) :
    (jsTrim value = [] ∧ d = []) ∨
    (isAbsoluteForm (jsTrim value) = true ∧
     fs.existsSync (expandTilde home (jsTrim value)) = .ok true ∧
     fs.statSync (expandTilde home (jsTrim value)) = .ok ⟨true⟩ ∧
     d = expandTilde home (jsTrim value)) := by
  by_cases hempty : jsTrim value = []
  · left
    refine ⟨hempty, ?_⟩
    simp [validateAndSetProjectDirectory, hempty] at h
    exact h
  · right
    simp only [validateAndSetProjectDirectory, if_neg hempty] at h
    cases habs : isAbsoluteForm (jsTrim value) with
    | false => simp [habs] at h
    | true =>
        refine ⟨rfl, ?_⟩
        rw [if_neg (by simp [habs])] at h
        unfold fsCheck at h
        cases hex : fs.existsSync (expandTilde home (jsTrim value)) with
        | error e => simp [hex] at h
        | ok b =>
            cases b with
            | false => simp [hex] at h
            | true =>
                cases hst : fs.statSync (expandTilde home (jsTrim value)) with
                | error e => simp [hex, hst] at h
                | ok st =>
                    cases hdir : st.isDirectory with
                    | false => simp [hex, hst, hdir] at h
                    | true =>
                        simp [hex, hst, hdir] at h
                        have hstat : st = ⟨true⟩ := by cases st; simp_all
                        exact ⟨rfl, by rw [hstat], h.symm⟩

theorem c8_update_characterization_witness :
    validateAndSetProjectDirectory "/h".toList fsAllOk "/w".toList =
      .update "/w".toList ∧
    ((jsTrim "/w".toList = [] ∧ "/w".toList = ([] : List Char)) ∨
     (isAbsoluteForm (jsTrim "/w".toList) = true ∧
      fsAllOk.existsSync (expandTilde "/h".toList (jsTrim "/w".toList)) = .ok true ∧
      fsAllOk.statSync (expandTilde "/h".toList (jsTrim "/w".toList)) = .ok ⟨true⟩ ∧
      "/w".toList = expandTilde "/h".toList (jsTrim "/w".toList))) :=
  ⟨by decide,
   c8_update_characterization "/h".toList fsAllOk "/w".toList "/w".toList (by decide)⟩

/-- C4: whenever a non-empty trimmed input passes all validation checks
and a directory is persisted, the persisted value is the tilde-expanded
trimmed path, not the raw input. -/
theorem c4_persists_expanded (home : List Char) (fs : FileSystem)
    (value d : List Char) (hne : jsTrim value ≠ [])
    (h : validateAndSetProjectDirectory home fs value = .update d) :
    d = expandTilde home (jsTrim value) := by
  simp only [validateAndSetProjectDirectory, if_neg hne] at h
  cases habs : isAbsoluteForm (jsTrim value) with
  | false => simp [habs] at h
  | true =>
      rw [if_neg (by simp [habs])] at h
      unfold fsCheck at h
      cases hex : fs.existsSync (expandTilde home (jsTrim value)) with
      | error e => simp [hex] at h
      | ok b =>
          cases b with
          | false => simp [hex] at h
          | true =>
              cases hst : fs.statSync (expandTilde home (jsTrim value)) with
              | error e => simp [hex, hst] at h
              | ok st =>
                  cases hdir : st.isDirectory with
                  | false => simp [hex, hst, hdir] at h
                  | true =>
                      simp [hex, hst, hdir] at h
                      exact h.symm

theorem c4_persists_expanded_witness :
    (jsTrim "~/proj".toList ≠ [] ∧
     validateAndSetProjectDirectory "/home/u".toList fsAllOk "~/proj".toList =
       .update "/home/u/proj".toList) ∧
    "/home/u/proj".toList = expandTilde "/home/u".toList (jsTrim "~/proj".toList) :=
  ⟨⟨by decide, by decide⟩,
   c4_persists_expanded "/home/u".toList fsAllOk "~/proj".toList
     "/home/u/proj".toList (by decide) (by decide)⟩

/-- C10: a trimmed input that starts with `~` but is neither `"~"` nor of
the form `"~/..."` (e.g. `"~user/project"`) passes the absolute-form
check, is left unchanged by `expandTilde`, and its existence/directory
checks therefore run on the literal un-expanded string. -/
theorem c10_tilde_user_literal (home : List Char) (fs : FileSystem)
    (s : List Char) (h0 : jsTrim s = s)
    (h1 : ['~'].isPrefixOf s = true)
    (h2 : s ≠ ['~'])
    (h3 : ['~', '/'].isPrefixOf s = false) :
    isAbsoluteForm s = true ∧
    expandTilde home s = s ∧
    validateAndSetProjectDirectory home fs s = fsCheck fs s := by
  have habs : isAbsoluteForm s = true := by simp [isAbsoluteForm, h1]
  have hexp : expandTilde home s = s := by simp [expandTilde, h2, h3]
  have hne : s ≠ [] := by
    intro hs
    rw [hs] at h1
    simp [List.isPrefixOf] at h1
  refine ⟨habs, hexp, ?_⟩
  simp only [validateAndSetProjectDirectory, h0, if_neg hne]
  rw [if_neg (by simp [habs]), hexp]

theorem c10_tilde_user_literal_witness :
    (jsTrim "~user/project".toList = "~user/project".toList ∧
     ['~'].isPrefixOf "~user/project".toList = true ∧
     "~user/project".toList ≠ ['~'] ∧
     ['~', '/'].isPrefixOf "~user/project".toList = false) ∧
    (isAbsoluteForm "~user/project".toList = true ∧
     expandTilde "/home/u".toList "~user/project".toList = "~user/project".toList ∧
     validateAndSetProjectDirectory "/home/u".toList fsAllOk "~user/project".toList =
       fsCheck fsAllOk "~user/project".toList) :=
  ⟨⟨by decide, by decide, by decide, by decide⟩,
   c10_tilde_user_literal "/home/u".toList fsAllOk "~user/project".toList
     (by decide) (by decide) (by decide) (by decide)⟩

/-- C6: each edit cancels the pending timer and schedules validation
500 ms later, so when every consecutive pair of edits is less than 500 ms
apart, only the last value is ever validated; a superseded edit's
validation never runs, because its timer is cleared before its deadline
(the `else` branch of `debounceRun` discards it). -/
theorem c6_debounce_coalesces (α : Type) (edits : List (Nat × α))
    (h : List.Chain' (fun a b => b.1 < a.1 + 500) edits) :
    debounceRun edits = ((edits.map Prod.snd).getLast?).toList := by
  induction edits with
  | nil => rfl
  | cons hd tl ih =>
      cases tl with
      | nil => simp [debounceRun]
      | cons hd2 tl2 =>
          obtain ⟨t, v⟩ := hd
          obtain ⟨t2, v2⟩ := hd2
          rw [List.chain'_cons] at h
          have hlt : t2 < t + 500 := h.1
          simp only [debounceRun, List.map_cons]
          rw [if_neg (by omega), ih h.2]
          simp only [List.map_cons, List.getLast?_cons_cons]

theorem c6_debounce_coalesces_witness :
    List.Chain' (fun a b => b.1 < a.1 + 500)
      [((0:Nat), (10:Nat)), (400, 20), (799, 30)] ∧
    debounceRun [((0:Nat), (10:Nat)), (400, 20), (799, 30)] = [30] :=
  ⟨by simp [List.chain'_cons],
   (c6_debounce_coalesces Nat [((0:Nat), (10:Nat)), (400, 20), (799, 30)]
     (by simp [List.chain'_cons])).trans (by decide)⟩

end SettingsTab
